import Mathlib

/-!
# Verification of the replica-aware storage access layer

Shallow embedding of the storage-service and healing-service logic of the
DistributedSystem repository (`minioService.js` and `healingService.js`).

Network effects are modelled by per-node outcome functions: a call against
node `i` is an `Except MinioError _` (or a dedicated outcome type) supplied
as a parameter, and each embedded operation additionally returns the trace
of node indices it contacted, so that claims about *which* nodes are
attempted, and in which order, are provable.
-/

/-- Errors raised by the underlying MinIO client.  The JS code classifies an
error as connection-class by testing whether its message contains
`EHOSTUNREACH`, `ECONNREFUSED` or `ETIMEDOUT`; those three message shapes are
the first three constructors.  `noSuchKey` stands for the object-missing
error (`code === 'NoSuchKey'` / message containing `not found`); `other tag`
stands for any further error message. -/
inductive MinioError where
  | ehostunreach
  | econnrefused
  | etimedout
  | noSuchKey
  | other (tag : Nat)
deriving DecidableEq

/-- Embedding of the failover guard in `uploadFile` / `uploadFileFromBuffer`:
`primaryError.message.includes('EHOSTUNREACH') || ...('ECONNREFUSED') ||
...('ETIMEDOUT')`. -/
def isConnectionError : MinioError → Bool
  | .ehostunreach => true
  | .econnrefused => true
  | .etimedout => true
  | _ => false

instance {ε α : Type} [DecidableEq ε] [DecidableEq α] : DecidableEq (Except ε α) := fun x y =>
  match x, y with
  | .ok a, .ok b =>
    if h : a = b then isTrue (congrArg Except.ok h)
    else isFalse (fun hc => h (Except.ok.inj hc))
  | .error a, .error b =>
    if h : a = b then isTrue (congrArg Except.error h)
    else isFalse (fun hc => h (Except.error.inj hc))
  | .ok _, .error _ => isFalse (fun hc => Except.noConfusion hc)
  | .error _, .ok _ => isFalse (fun hc => Except.noConfusion hc)

/-- Errors thrown by `uploadFileFromBuffer`: either the primary's own
non-connection error rethrown verbatim, or the
`Upload failed on all MinIO nodes. Last error: ...` error built after the
fallback loop, which embeds the last observed underlying error. -/
inductive UploadError where
  | primaryError (e : MinioError)
  | allNodesFailed (last : MinioError)
deriving DecidableEq

/-- Observable outcome of one `uploadFileFromBuffer` call: the returned /
thrown result, the node indices attempted in order (the primary attempt
first), and the node indices on which a put actually succeeded. -/
structure UploadRun where
  result : Except UploadError Unit
  attempted : List Nat
  written : List Nat
deriving DecidableEq

/-- The fallback `for (let i = 0; i < clients.length; i++)` loop of
`uploadFileFromBuffer`: try each node of the list in order, keep the last
error, return on the first success; after the loop throw
`allNodesFailed lastError`.  Returns (result, attempted nodes, written
nodes). -/
def uploadFallback (outcome : Nat → Except MinioError Unit) :
    List Nat → MinioError → Except UploadError Unit × List Nat × List Nat
  | [], lastError => (.error (.allNodesFailed lastError), [], [])
  | i :: rest, _ =>
    match outcome i with
    | .ok _ => (.ok (), [i], [i])
    | .error e =>
      let r := uploadFallback outcome rest e
      (r.1, i :: r.2.1, r.2.2)

/-- Embedding of `uploadFileFromBuffer` (part_004 lines 166-203).  `n` is the
number of registry nodes (`getMinioClients()` builds one client per registry
node), `primary` is the registry index of the node the module-level
`minioClient` is connected to, and `outcome i` is the result of a
`putObject` against node `i`. -/
def uploadFileFromBuffer (n primary : Nat)
    (outcome : Nat → Except MinioError Unit) : UploadRun :=
  match outcome primary with
  | .ok _ => ⟨.ok (), [primary], [primary]⟩
  | .error e =>
    if isConnectionError e then
      let r := uploadFallback outcome (List.range n) e
      ⟨r.1, primary :: r.2.1, r.2.2⟩
    else
      ⟨.error (.primaryError e), [primary], []⟩

/-- The `lastError` threading of the upload fallback loop, seeded with the
primary's error: fold the per-node outcomes over the node list, replacing
the accumulator by each error seen. -/
def lastErrFrom (outcome : Nat → Except MinioError Unit)
    (l : List Nat) (e0 : MinioError) : MinioError :=
  l.foldl (fun acc i => match outcome i with | .error e => e | .ok _ => acc) e0

/-- The node indices a first-success-wins loop visits: every node of the
list up to and including the first one whose outcome is `ok`. -/
def attemptsUpTo (outcome : Nat → Except MinioError Unit) : List Nat → List Nat
  | [] => []
  | i :: rest =>
    match outcome i with
    | .ok _ => [i]
    | .error _ => i :: attemptsUpTo outcome rest

/-- Error thrown by `getFileStreamFromReplica` when no node serves the
object: the last per-node error if at least one node was tried, otherwise
the fresh `File not found in any replica` error (`throw lastError || new
Error(...)`). -/
inductive ReadError where
  | node (e : MinioError)
  | noReplica
deriving DecidableEq

/-- `lastError || new Error('File not found in any replica')`. -/
def mkReadError : Option MinioError → ReadError
  | some e => .node e
  | none => .noReplica

/-- The `let lastError = ...` threading of the read loop: fold the per-node
outcomes over the node list, replacing the accumulator by each error seen. -/
def lastErrVia {α : Type} (get : Nat → Except MinioError α)
    (l : List Nat) (last : Option MinioError) : Option MinioError :=
  l.foldl (fun acc i => match get i with | .error e => some e | .ok _ => acc) last

/-- The `for (let i = 0; i < clients.length; i++)` loop of
`getFileStreamFromReplica`: try `getObject` on each node in order; on the
first success return the stream together with the serving node index; on
failure remember the error and continue; after the loop throw the last
error.  Also returns the trace of contacted nodes. -/
def readReplicas {α : Type} (get : Nat → Except MinioError α) :
    List Nat → Option MinioError → Except ReadError (α × Nat) × List Nat
  | [], lastError => (.error (mkReadError lastError), [])
  | i :: rest, _ =>
    match get i with
    | .ok s => (.ok (s, i), [i])
    | .error e =>
      let r := readReplicas get rest (some e)
      (r.1, i :: r.2)

/-- Embedding of `getFileStreamFromReplica` (part_004 lines 279-301,
`minioService.js` lines 168-190): iterate the `n` registry nodes in order
starting from `lastError = null`. -/
def getFileStreamFromReplica {α : Type} (n : Nat)
    (get : Nat → Except MinioError α) : Except ReadError (α × Nat) × List Nat :=
  readReplicas get (List.range n) none

/-- One Replica Status Record produced by `deleteFileFromAllReplicas`.  The
JS record also copies `nodeEndpoint`/`nodePort` out of the registry entry of
`nodeIndex`; those two derived fields are omitted here. -/
structure ReplicaStatus where
  nodeIndex : Nat
  success : Bool
  error : Option MinioError
deriving DecidableEq

/-- How one storage node behaves when `removeObject` is called on it:
either the call succeeds (MinIO removes the key; removing an absent key
also succeeds), or the call fails with an error and the node's contents are
unchanged. -/
inductive DeleteBehavior where
  | callOk
  | callFails (e : MinioError)
deriving DecidableEq

/-- The `Except` result of a `removeObject` call under a given behaviour. -/
def delCall : DeleteBehavior → Except MinioError Unit
  | .callOk => .ok ()
  | .callFails e => .error e

/-- Contents of a node after a `removeObject key` call: a successful call
removes the key, a failed call leaves the store unchanged.  Keys are opaque
strings in the JS code; the key type is kept abstract here. -/
def removeObjectPost {κ : Type} [DecidableEq κ] (store : List κ)
    (beh : DeleteBehavior) (key : κ) : List κ :=
  match beh with
  | .callOk => store.filter (fun k => k ≠ key)
  | .callFails _ => store

/-- Embedding of `deleteFileFromAllReplicas` (part_004 lines 318-344,
`minioService.js` lines 207-233): for every registry node in order, call
`removeObject` and push one status record — `success: true` on a successful
call, `success: false` plus the error message on a caught error.  The loop
has no early exit and catches every per-node error. -/
def deleteFileFromAllReplicas (n : Nat)
    (del : Nat → Except MinioError Unit) : List ReplicaStatus :=
  (List.range n).map fun i =>
    match del i with
    | .ok _ => ⟨i, true, none⟩
    | .error e => ⟨i, false, some e⟩

/-- Outcome of the `Promise.race([statObject, timeout])` probe that
`getStorageLocations` (part_004 lines 364-394) runs against one node: the
stat resolved first and succeeded, the stat rejected first, or the 3000 ms
`Node check timeout` fired first. -/
inductive StatOutcome where
  | found
  | statFailed (e : MinioError)
  | timedOutProbe
deriving DecidableEq

/-- One entry pushed by `getStorageLocations`; the JS object also copies
`endpoint`/`port` out of the registry entry of `nodeIndex`, omitted here. -/
structure StorageLocation where
  nodeIndex : Nat
deriving DecidableEq

/-- The probe loop of `getStorageLocations`: check every node of the list in
order; a `found` probe pushes a location, any caught error (stat failure or
probe timeout) just continues.  Returns (locations, probed nodes). -/
def locationsGo (stat : Nat → StatOutcome) :
    List Nat → List StorageLocation × List Nat
  | [] => ([], [])
  | i :: rest =>
    let r := locationsGo stat rest
    match stat i with
    | .found => (⟨i⟩ :: r.1, i :: r.2)
    | _ => (r.1, i :: r.2)

/-- Embedding of `getStorageLocations` (part_004 lines 364-394) over the `n`
registry nodes. -/
def getStorageLocations (n : Nat) (stat : Nat → StatOutcome) :
    List StorageLocation × List Nat :=
  locationsGo stat (List.range n)

/-! ## Node registry resolution (`parseMinioNodes`)

The JS string operations are embedded over `List Char` so that every step of
`parseMinioNodes` (part_004 lines 8-34, identical in `minioService.js`) is a
plain structural recursion. -/

/-- The whitespace class trimmed by JS `String.prototype.trim`. -/
def jsIsWhitespace (c : Char) : Bool :=
  c = ' ' || c = '\t' || c = '\n' || c = '\r' || c = '\x0b' || c = '\x0c'

/-- JS `s.trim()`. -/
def jsTrim (cs : List Char) : List Char :=
  ((cs.dropWhile jsIsWhitespace).reverse.dropWhile jsIsWhitespace).reverse

/-- JS `s.split(sep)` for a one-character separator: always returns
one more field than there are separator occurrences (so `','.split(',')`
gives two empty fields). -/
def jsSplit (sep : Char) : List Char → List (List Char)
  | [] => [[]]
  | c :: cs =>
    match jsSplit sep cs with
    | [] => [[]]
    | fld :: rest => if c = sep then [] :: fld :: rest else (c :: fld) :: rest

/-- Accumulate a run of decimal digits, most significant first. -/
def digitsToNat : List Char → Nat → Nat
  | [], acc => acc
  | c :: cs, acc => digitsToNat cs (acc * 10 + (c.toNat - 48))

/-- The maximal leading digit run of `cs`, as a number; `none` when there is
no leading digit (JS `NaN`). -/
def leadingDigitsValue (cs : List Char) : Option Nat :=
  let ds := cs.takeWhile Char.isDigit
  if ds.isEmpty then none else some (digitsToNat ds 0)

/-- JS `Number.parseInt(s, 10)`: skip leading whitespace, accept an optional
sign, then read the maximal run of decimal digits; `none` models `NaN`. -/
def jsParseInt10 (cs : List Char) : Option Int :=
  match cs.dropWhile jsIsWhitespace with
  | '-' :: rest => (leadingDigitsValue rest).map (fun v => -(v : Int))
  | '+' :: rest => (leadingDigitsValue rest).map (fun v => (v : Int))
  | t => (leadingDigitsValue t).map (fun v => (v : Int))

/-- One resolved registry entry (`{ endpoint: host, port }`). -/
structure NodeConfig where
  endpoint : List Char
  port : Int
deriving DecidableEq

/-- The `Invalid MINIO_NODES entry: '...'. Expected host:port` configuration
error. -/
inductive ConfigError where
  | invalidNodesEntry (entry : List Char)
deriving DecidableEq

/-- The per-entry parser inside `parseMinioNodes`:
`const [host, portStr] = entry.split(':'); const port = parseInt(portStr, 10);
if (!host || Number.isNaN(port)) throw ...; return { endpoint: host, port }`.
A missing second component means `portStr` is `undefined`, whose `parseInt`
is `NaN`. -/
def parseNodesEntry (entry : List Char) : Except ConfigError NodeConfig :=
  let parts := jsSplit ':' entry
  let host := parts.headD []
  let port? : Option Int :=
    match parts[1]? with
    | none => none
    | some portStr => jsParseInt10 portStr
  match port? with
  | none => .error (.invalidNodesEntry entry)
  | some port =>
    if host.isEmpty then .error (.invalidNodesEntry entry) else .ok ⟨host, port⟩

/-- JS `Array.prototype.map` with a throwing callback: entries are parsed
left to right and the first bad entry aborts with its error. -/
def parseNodesEntries : List (List Char) → Except ConfigError (List NodeConfig)
  | [] => .ok []
  | e :: rest =>
    match parseNodesEntry e with
    | .error c => .error c
    | .ok c =>
      match parseNodesEntries rest with
      | .error c' => .error c'
      | .ok cs => .ok (c :: cs)

/-- JS `value || fallbackWord`: the empty string is falsy. -/
def jsOrElse (v : Option (List Char)) (d : List Char) : List Char :=
  match v with
  | some s => if s.isEmpty then d else s
  | none => d

def localhostChars : List Char := ['l', 'o', 'c', 'a', 'l', 'h', 'o', 's', 't']

/-- Embedding of `parseMinioNodes` (part_004 lines 8-34).  `minioNodes` and
`minioEndpoint` model `process.env.MINIO_NODES` / `process.env.MINIO_ENDPOINT`
(`none` = unset).  When the trimmed explicit list is non-empty it is split on
commas, each piece trimmed, empty pieces dropped by `.filter(Boolean)`, and
the remaining entries parsed; otherwise the single-host three-port fallback
is returned. -/
def parseMinioNodes (minioNodes minioEndpoint : Option (List Char)) :
    Except ConfigError (List NodeConfig) :=
  let raw := jsTrim (minioNodes.getD [])
  if raw.isEmpty then
    let endpoint := jsOrElse minioEndpoint localhostChars
    .ok [⟨endpoint, 9001⟩, ⟨endpoint, 9003⟩, ⟨endpoint, 9005⟩]
  else
    parseNodesEntries (((jsSplit ',' raw).map jsTrim).filter (fun e => !e.isEmpty))

/-! ## Background healing service (`healingService.js`) -/

/-- How one `statObject` call inside `healFileIfNeeded` is classified by the
catch block: success (`present`), an object-missing error
(`error.code === 'NoSuchKey' || error.message.includes('not found')`,
yielding `missingHere`), or any other error (`nodeDown`, logged as "node
appears down" and skipped). -/
inductive HealStat where
  | present
  | missingHere
  | nodeDown (e : MinioError)
deriving DecidableEq

/-- Console-observable events of one `healFileIfNeeded` call. -/
inductive HealEvent where
  | healedTo (node : Nat)
  | copyFailed (node : Nat)
  | noSourceFound
deriving DecidableEq

/-- Result of one `healFileIfNeeded` call: the returned boolean and the
events it logged.  Every storage call in the JS body sits inside a
`try`/`catch`, so the promise always resolves; hence the embedding is a
total function. -/
structure HealRun where
  healed : Bool
  events : List HealEvent
deriving DecidableEq

/-- The first loop of `healFileIfNeeded`: collect the indices of nodes whose
stat was classified `missingHere` (nodes that look down are *not* collected). -/
def missingNodes (n : Nat) (stat : Nat → HealStat) : List Nat :=
  (List.range n).filter (fun i => stat i = HealStat.missingHere)

/-- The source-search loop of `healFileIfNeeded`: first node not in
`missing` whose (repeated) stat succeeds. -/
def findSourceGo (stat : Nat → HealStat) (missing : List Nat) :
    List Nat → Option Nat
  | [] => none
  | i :: rest =>
    if missing.contains i then findSourceGo stat missing rest
    else
      match stat i with
      | .present => some i
      | _ => findSourceGo stat missing rest

/-- Embedding of `HealingService.healFileIfNeeded` (healingService.js lines
103-160) for one object against `n` registry nodes.  `stat i` classifies the
stat of node `i`; `copyOk j` tells whether `copyFileToNode` to missing node
`j` succeeds.  The copy loop catches failures and the function returns
`true` after it regardless of copy outcomes. -/
def healFileIfNeeded (n : Nat) (stat : Nat → HealStat) (copyOk : Nat → Bool) :
    HealRun :=
  let missing := missingNodes n stat
  if missing.isEmpty then ⟨false, []⟩
  else
    match findSourceGo stat missing (List.range n) with
    | none => ⟨false, [.noSourceFound]⟩
    | some _ =>
      ⟨true, missing.map (fun j =>
        if copyOk j then HealEvent.healedTo j else HealEvent.copyFailed j)⟩

/-- The `healed X files, Y errors` summary of one `runHealingCycle`, plus
the number of files the loop processed. -/
structure CycleSummary where
  healedCount : Nat
  errorCount : Nat
  processed : Nat
deriving DecidableEq

/-- Embedding of the per-file loop of `HealingService.runHealingCycle`
(healingService.js lines 69-98): fold over the metadata file list, counting
a file as healed when `healFileIfNeeded` returns `true`; `errorCount` counts
files whose `healFileIfNeeded` promise rejected, which the embedded total
function never does. -/
def runHealingCycle (files : List Nat) (stat : Nat → Nat → HealStat)
    (copyOk : Nat → Nat → Bool) (n : Nat) : CycleSummary :=
  files.foldl
    (fun acc f =>
      let r := healFileIfNeeded n (stat f) (copyOk f)
      ⟨acc.healedCount + (if r.healed then 1 else 0), acc.errorCount,
        acc.processed + 1⟩)
    ⟨0, 0, 0⟩

/-- Process-level state of the healing service: the `isRunning` flag, whether
the `setInterval` timer is scheduled, and how many `runHealingCycle` calls
are currently in flight (the async calls are not awaited by `start` or by
the timer callback). -/
structure HealSvcState where
  isRunning : Bool
  timerSet : Bool
  activeCycles : Nat
deriving DecidableEq

/-- Console-observable effects of one `start()` call. -/
inductive StartEffect where
  | logAlreadyRunning
  | runCycleNow
  | scheduleInterval
deriving DecidableEq

/-- Embedding of `HealingService.start` (healingService.js lines 28-46): a
no-op (plus a log line) when `isRunning` is already set; otherwise set the
flag, fire one `runHealingCycle()` immediately, then schedule the interval
timer. -/
def healSvcStart (s : HealSvcState) : HealSvcState × List StartEffect :=
  if s.isRunning then (s, [.logAlreadyRunning])
  else (⟨true, true, s.activeCycles + 1⟩, [.runCycleNow, .scheduleInterval])

/-- Embedding of `HealingService.stop` (healingService.js lines 51-64). -/
def healSvcStop (s : HealSvcState) : HealSvcState :=
  if s.isRunning then ⟨false, false, s.activeCycles⟩ else s

/-- Events the process can observe: `start()` / `stop()` calls, a firing of
the `setInterval` timer (possible exactly while the timer is scheduled), and
the completion of one in-flight healing cycle. -/
inductive HealSvcEvent where
  | startCall
  | stopCall
  | timerTick
  | cycleFinish
deriving DecidableEq

/-- One step of the healing-service process.  The timer callback is
`() => this.runHealingCycle()`: it consults no flag at all, so a tick always
launches another cycle, even while a previous cycle is still in flight. -/
def healSvcStep (s : HealSvcState) : HealSvcEvent → HealSvcState
  | .startCall => (healSvcStart s).1
  | .stopCall => healSvcStop s
  | .timerTick =>
    if s.timerSet then ⟨s.isRunning, s.timerSet, s.activeCycles + 1⟩ else s
  | .cycleFinish => ⟨s.isRunning, s.timerSet, s.activeCycles - 1⟩

/-- The freshly constructed service (`new HealingService()`). -/
def healSvcInit : HealSvcState := ⟨false, false, 0⟩

/-- Run the service from its initial state through a list of events. -/
def healSvcRun (evs : List HealSvcEvent) : HealSvcState :=
  evs.foldl healSvcStep healSvcInit

/-! ## Helper lemmas -/

lemma locationsGo_eq (stat : Nat → StatOutcome) (l : List Nat) :
    locationsGo stat l =
      ((l.filter (fun i => stat i = StatOutcome.found)).map StorageLocation.mk, l) := by
  induction l with
  | nil => rfl
  | cons i rest ih =>
    simp only [locationsGo, ih, List.filter_cons]
    cases h : stat i <;> simp [h]

lemma lastErrVia_cons {α : Type} (get : Nat → Except MinioError α) (i : Nat)
    (rest : List Nat) (last : Option MinioError) {e : MinioError}
    (h : get i = .error e) :
    lastErrVia get (i :: rest) last = lastErrVia get rest (some e) := by
  simp [lastErrVia, h]

/-- Complete case analysis of the read-failover loop over an arbitrary node
list: either some node succeeds — the result carries the value and index of
the first such node and the trace stops there — or every node fails and the
loop falls through to `throw lastError`. -/
lemma readReplicas_cases {α : Type} (get : Nat → Except MinioError α) :
    ∀ (l : List Nat) (last : Option MinioError),
      (∃ s i l₁ l₂,
        readReplicas get l last = (.ok (s, i), l₁ ++ [i]) ∧
        l = l₁ ++ i :: l₂ ∧ (∀ j ∈ l₁, (get j).isOk = false) ∧ get i = .ok s) ∨
      ((∀ j ∈ l, (get j).isOk = false) ∧
        readReplicas get l last =
          (.error (mkReadError (lastErrVia get l last)), l)) := by
  intro l
  induction l with
  | nil =>
    intro last
    exact Or.inr ⟨by simp, rfl⟩
  | cons i rest ih =>
    intro last
    cases hi : get i with
    | ok s =>
      exact Or.inl ⟨s, i, [], rest, by simp [readReplicas, hi], rfl, by simp, hi⟩
    | error e =>
      rcases ih (some e) with ⟨s, j, l₁, l₂, hr, hl, hfail, hok⟩ | ⟨hfail, hr⟩
      · refine Or.inl ⟨s, j, i :: l₁, l₂, ?_, by simp [hl], ?_, hok⟩
        · simp [readReplicas, hi, hr]
        · intro j' hj'
          rcases List.mem_cons.mp hj' with h' | h'
          · subst h'; simp [hi, Except.isOk, Except.toBool]
          · exact hfail j' h'
      · refine Or.inr ⟨?_, ?_⟩
        · intro j hj
          rcases List.mem_cons.mp hj with h' | h'
          · subst h'; simp [hi, Except.isOk, Except.toBool]
          · exact hfail j h'
        · rw [lastErrVia_cons get i rest last hi]
          simp [readReplicas, hi, hr]

/-- Decomposing `List.range n` around a distinguished element: everything
before `i` is exactly `List.range i`. -/
lemma range_append_cons {n i : Nat} {l₁ l₂ : List Nat}
    (h : List.range n = l₁ ++ i :: l₂) : l₁ = List.range i ∧ i < n := by
  have hlen : l₁.length + (l₂.length + 1) = n := by
    have := congrArg List.length h
    simpa [List.length_append, List.length_range, Nat.add_comm,
      Nat.add_assoc] using this.symm
  have hlt : l₁.length < n := by omega
  have hmid : (l₁ ++ i :: l₂)[l₁.length]? = some i := by
    rw [List.getElem?_append_right (Nat.le_refl _)]
    simp
  have hi : i = l₁.length := by
    have := List.getElem?_range hlt
    rw [h] at this
    rw [hmid] at this
    exact Option.some.inj this
  subst hi
  refine ⟨?_, hlt⟩
  have htake : (l₁ ++ l₁.length :: l₂).take l₁.length = l₁ := List.take_left _ _
  rw [← h] at htake
  rw [List.take_range, Nat.min_eq_left (Nat.le_of_lt hlt)] at htake
  exact htake.symm

/-- When every node of `List.range n` fails, the threaded `lastError` is the
error of node `n - 1`. -/
lemma lastErrVia_range {α : Type} (get : Nat → Except MinioError α)
    (err : Nat → MinioError) (n : Nat) (hn : 0 < n)
    (hfail : ∀ i, i < n → get i = .error (err i)) :
    lastErrVia get (List.range n) none = some (err (n - 1)) := by
  obtain ⟨m, rfl⟩ : ∃ m, n = m + 1 := ⟨n - 1, by omega⟩
  rw [List.range_succ]
  unfold lastErrVia
  rw [List.foldl_append]
  simp [hfail m (by omega)]

lemma uploadFallback_attempted (outcome : Nat → Except MinioError Unit) :
    ∀ (l : List Nat) (e0 : MinioError),
      (uploadFallback outcome l e0).2.1 = attemptsUpTo outcome l := by
  intro l
  induction l with
  | nil => intro e0; rfl
  | cons i rest ih =>
    intro e0
    cases hi : outcome i with
    | ok u => simp [uploadFallback, attemptsUpTo, hi]
    | error e => simp [uploadFallback, attemptsUpTo, hi, ih e]

/-- Complete case analysis of the upload fallback loop over an arbitrary
node list: either some node accepts the write — the loop returns there,
having written to that node only — or every node fails and the loop falls
through to `throw allNodesFailed lastError`. -/
lemma uploadFallback_cases (outcome : Nat → Except MinioError Unit) :
    ∀ (l : List Nat) (e0 : MinioError),
      (∃ i l₁ l₂,
        uploadFallback outcome l e0 = (.ok (), l₁ ++ [i], [i]) ∧
        l = l₁ ++ i :: l₂ ∧ (∀ j ∈ l₁, (outcome j).isOk = false) ∧
        outcome i = .ok ()) ∨
      ((∀ j ∈ l, (outcome j).isOk = false) ∧
        uploadFallback outcome l e0 =
          (.error (.allNodesFailed (lastErrFrom outcome l e0)), l, [])) := by
  intro l
  induction l with
  | nil =>
    intro e0
    exact Or.inr ⟨by simp, rfl⟩
  | cons i rest ih =>
    intro e0
    cases hi : outcome i with
    | ok u =>
      cases u
      exact Or.inl ⟨i, [], rest, by simp [uploadFallback, hi], rfl, by simp, hi⟩
    | error e =>
      rcases ih e with ⟨j, l₁, l₂, hr, hl, hfail, hok⟩ | ⟨hfail, hr⟩
      · refine Or.inl ⟨j, i :: l₁, l₂, ?_, by simp [hl], ?_, hok⟩
        · simp [uploadFallback, hi, hr]
        · intro j' hj'
          rcases List.mem_cons.mp hj' with h' | h'
          · subst h'; simp [hi, Except.isOk, Except.toBool]
          · exact hfail j' h'
      · refine Or.inr ⟨?_, ?_⟩
        · intro j hj
          rcases List.mem_cons.mp hj with h' | h'
          · subst h'; simp [hi, Except.isOk, Except.toBool]
          · exact hfail j h'
        · have hle : lastErrFrom outcome (i :: rest) e0 =
              lastErrFrom outcome rest e := by
            simp [lastErrFrom, hi]
          rw [hle]
          simp [uploadFallback, hi, hr]

/-- When every node of `List.range n` fails, the threaded `lastError` of the
upload fallback loop ends as the error of node `n - 1`. -/
lemma lastErrFrom_range (outcome : Nat → Except MinioError Unit)
    (err : Nat → MinioError) (n : Nat) (hn : 0 < n)
    (hfail : ∀ i, i < n → outcome i = .error (err i)) (e0 : MinioError) :
    lastErrFrom outcome (List.range n) e0 = err (n - 1) := by
  obtain ⟨m, rfl⟩ : ∃ m, n = m + 1 := ⟨n - 1, by omega⟩
  rw [List.range_succ]
  unfold lastErrFrom
  rw [List.foldl_append]
  simp [hfail m (by omega)]

/-- A throwing entry anywhere in the list makes the JS `map` throw. -/
lemma parseNodesEntries_error_of_mem {l : List (List Char)} {e : List Char}
    {c : ConfigError} (hmem : e ∈ l) (herr : parseNodesEntry e = .error c) :
    ∃ c', parseNodesEntries l = .error c' := by
  induction l with
  | nil => cases hmem
  | cons a rest ih =>
    rcases List.mem_cons.mp hmem with h' | h'
    · subst h'
      exact ⟨c, by simp [parseNodesEntries, herr]⟩
    · cases ha : parseNodesEntry a with
      | error c'' => exact ⟨c'', by simp [parseNodesEntries, ha]⟩
      | ok cfg =>
        obtain ⟨c', hc'⟩ := ih h'
        exact ⟨c', by simp [parseNodesEntries, ha, hc']⟩

/-! ## Claim theorems -/

/-- Claim C4: for every object key and `n` registered nodes, `getStorageLocations`
probes each node exactly once (the probe trace is exactly the registry,
`List.range n`, with each index occurring once), never raises to the caller
on a probe timeout or stat failure (the embedded loop is a total function
and treats both as "not present"), and returns between `0` and `n`
locations, in registry order, containing node `i` iff node `i`'s stat probe
succeeded within the timeout window (`stat i = .found`, i.e. the stat
resolved successfully before the 3000 ms race timer). -/
theorem locate_probes_once_and_filters (n : Nat) (stat : Nat → StatOutcome) :
    (getStorageLocations n stat).2 = List.range n ∧
    (∀ i, (getStorageLocations n stat).2.count i = if i < n then 1 else 0) ∧
    ((getStorageLocations n stat).1.map StorageLocation.nodeIndex =
      (List.range n).filter (fun i => stat i = StatOutcome.found)) ∧
    (getStorageLocations n stat).1.length ≤ n ∧
    (∀ i, StorageLocation.mk i ∈ (getStorageLocations n stat).1 ↔
      i < n ∧ stat i = StatOutcome.found) := by
  have hgo := locationsGo_eq stat (List.range n)
  refine ⟨?_, ?_, ?_, ?_, ?_⟩
  · simp [getStorageLocations, hgo]
  · intro i
    by_cases hi : i < n
    · simp only [getStorageLocations, hgo, if_pos hi]
      exact List.count_eq_one_of_mem (List.nodup_range n) (List.mem_range.mpr hi)
    · simp only [getStorageLocations, hgo, if_neg hi]
      exact List.count_eq_zero.mpr (fun hmem => hi (List.mem_range.mp hmem))
  · simp [getStorageLocations, hgo, List.map_map, Function.comp_def]
  · calc (getStorageLocations n stat).1.length
        = ((List.range n).filter (fun i => stat i = StatOutcome.found)).length := by
          simp [getStorageLocations, hgo]
      _ ≤ (List.range n).length := List.length_filter_le _ _
      _ = n := List.length_range n
  · intro i
    simp only [getStorageLocations, hgo, List.mem_map, List.mem_filter,
      List.mem_range]
    constructor
    · rintro ⟨j, ⟨hj, hs⟩, hmk⟩
      cases hmk
      exact ⟨hj, by simpa using hs⟩
    · rintro ⟨hi, hs⟩
      exact ⟨i, ⟨hi, by simpa using hs⟩, rfl⟩

/-- Claim C3: for every object key and `n` registered nodes,
`deleteFileFromAllReplicas` attempts deletion on all `n` nodes with no early
return and never raises for an individual node's failure (the embedding is a
total function producing one record per registry index), returning exactly
`n` Replica Status Records where record `i` carries `nodeIndex = i`, carries
`success = true` exactly when node `i`'s `removeObject` call succeeded, and
a successful call means node `i` no longer contains the key afterwards. -/
theorem deleteEverywhere_per_node_status {κ : Type} [DecidableEq κ] (n : Nat)
    (beh : Nat → DeleteBehavior) (store : Nat → List κ) (key : κ) :
    (deleteFileFromAllReplicas n (fun i => delCall (beh i))).length = n ∧
    (∀ i, i < n →
      (deleteFileFromAllReplicas n (fun i => delCall (beh i)))[i]? =
        some ⟨i, (delCall (beh i)).isOk,
          match beh i with | .callOk => none | .callFails e => some e⟩) ∧
    (∀ i, (delCall (beh i)).isOk = true →
      key ∉ removeObjectPost (store i) (beh i) key) := by
  refine ⟨?_, ?_, ?_⟩
  · simp [deleteFileFromAllReplicas]
  · intro i hi
    simp only [deleteFileFromAllReplicas, List.getElem?_map,
      List.getElem?_range hi, Option.map_some]
    cases hb : beh i <;> simp [delCall, hb, Except.isOk, Except.toBool]
  · intro i hok
    cases hb : beh i with
    | callOk =>
      simp [removeObjectPost, List.mem_filter]
    | callFails e =>
      rw [hb] at hok
      simp [delCall, Except.isOk, Except.toBool] at hok

/-- Concrete instantiation of `deleteEverywhere_per_node_status`: two nodes,
node 0 accepts the delete, node 1 is down. -/
theorem deleteEverywhere_per_node_status_witness :
    (deleteFileFromAllReplicas 2 (fun i => delCall
        (if i = 0 then DeleteBehavior.callOk
         else DeleteBehavior.callFails MinioError.econnrefused))).length = 2 ∧
    (deleteFileFromAllReplicas 2 (fun i => delCall
        (if i = 0 then DeleteBehavior.callOk
         else DeleteBehavior.callFails MinioError.econnrefused)))[1]? =
      some ⟨1, false, some MinioError.econnrefused⟩ ∧
    (5 : Nat) ∉ removeObjectPost [5] DeleteBehavior.callOk 5 := by
  have h := deleteEverywhere_per_node_status 2
    (fun i => if i = 0 then DeleteBehavior.callOk
      else DeleteBehavior.callFails MinioError.econnrefused)
    (fun _ => ([5] : List Nat)) 5
  exact ⟨h.1, h.2.1 1 (by decide), h.2.2 0 (by decide)⟩

/-- Claim C9: `start()` on a stopped healing service sets `isRunning`, fires one
healing cycle immediately (`activeCycles` grows by one, and the
`runCycleNow` effect precedes `scheduleInterval`), and schedules the
periodic timer; `start()` while already running changes no state, schedules
nothing, and merely logs — it does not raise. -/
theorem healing_start_transition (s : HealSvcState) :
    (s.isRunning = false →
      healSvcStart s = (⟨true, true, s.activeCycles + 1⟩,
        [StartEffect.runCycleNow, StartEffect.scheduleInterval])) ∧
    (s.isRunning = true →
      healSvcStart s = (s, [StartEffect.logAlreadyRunning])) := by
  constructor <;> intro h <;> simp [healSvcStart, h]

/-- Concrete instantiation of `healing_start_transition`: a fresh service
and an already-running one. -/
theorem healing_start_transition_witness :
    healSvcStart ⟨false, false, 0⟩ = (⟨true, true, 1⟩,
      [StartEffect.runCycleNow, StartEffect.scheduleInterval]) ∧
    healSvcStart ⟨true, true, 1⟩ = (⟨true, true, 1⟩,
      [StartEffect.logAlreadyRunning]) :=
  ⟨(healing_start_transition ⟨false, false, 0⟩).1 rfl,
    (healing_start_transition ⟨true, true, 1⟩).2 rfl⟩

/-- Claim C7, counterexample: after `start()` (one cycle in flight) a timer tick
launches a second cycle — the code consults no in-progress-cycle flag, so
two healing cycles are concurrently in flight in the same process. -/
theorem healing_overlap_cex :
    healSvcRun [HealSvcEvent.startCall, HealSvcEvent.timerTick] =
      ⟨true, true, 2⟩ ∧
    1 < (healSvcRun [HealSvcEvent.startCall, HealSvcEvent.timerTick]).activeCycles := by
  decide

/-- Claim C7, amended: there is no in-progress-cycle flag: whenever the interval
timer is scheduled, a tick unconditionally launches another healing cycle,
so a tick arriving while a cycle is still running yields two overlapping
cycles; the `isRunning` flag only makes a second `start()` a no-op (it never
schedules a second timer). -/
theorem healing_tick_overlaps_cycles (s : HealSvcState)
    (ht : s.timerSet = true) :
    (healSvcStep s .timerTick).activeCycles = s.activeCycles + 1 ∧
    (1 ≤ s.activeCycles → 2 ≤ (healSvcStep s .timerTick).activeCycles) ∧
    (s.isRunning = true → healSvcStep s .startCall = s) := by
  refine ⟨?_, ?_, ?_⟩
  · simp [healSvcStep, ht]
  · intro h1
    simp [healSvcStep, ht]
    omega
  · intro hr
    simp [healSvcStep, healSvcStart, hr]

/-- Concrete instantiation of `healing_tick_overlaps_cycles` at the state
reached right after `start()`. -/
theorem healing_tick_overlaps_cycles_witness :
    (healSvcStep ⟨true, true, 1⟩ .timerTick).activeCycles = 2 ∧
    2 ≤ (healSvcStep ⟨true, true, 1⟩ .timerTick).activeCycles ∧
    healSvcStep ⟨true, true, 1⟩ .startCall = ⟨true, true, 1⟩ := by
  have h := healing_tick_overlaps_cycles ⟨true, true, 1⟩ rfl
  exact ⟨h.1, h.2.1 (by decide), h.2.2 rfl⟩

/-- Claim C2: for every object key (abstracted into the per-node outcome function
`get`) `getFileStreamFromReplica` succeeds iff at least one of the `n`
registry nodes serves the key; on success the returned serving node index is
the lowest index among succeeding nodes, the stream is that node's, and the
contacted-node trace is exactly nodes `0 .. i` — no node after the first
success is contacted. -/
theorem readObject_first_success_wins {α : Type} (n : Nat)
    (get : Nat → Except MinioError α) :
    ((getFileStreamFromReplica n get).1.isOk = true ↔
      ∃ i, i < n ∧ (get i).isOk = true) ∧
    (∀ s i, (getFileStreamFromReplica n get).1 = .ok (s, i) →
      get i = .ok s ∧ i < n ∧ (∀ j, j < i → (get j).isOk = false) ∧
      (getFileStreamFromReplica n get).2 = List.range (i + 1)) := by
  rcases readReplicas_cases get (List.range n) none with
    ⟨s, i, l₁, l₂, hr, hl, hfail, hok⟩ | ⟨hfail, hr⟩
  · obtain ⟨hl₁, hin⟩ := range_append_cons hl
    constructor
    · simp only [getFileStreamFromReplica, hr]
      constructor
      · intro _
        exact ⟨i, hin, by simp [hok, Except.isOk, Except.toBool]⟩
      · intro _
        simp [Except.isOk, Except.toBool]
    · intro s' i' h'
      have h2 : s = s' ∧ i = i' := by
        simpa [getFileStreamFromReplica, hr] using h'
      obtain ⟨rfl, rfl⟩ := h2
      refine ⟨hok, hin, ?_, ?_⟩
      · intro j hj
        exact hfail j (by rw [hl₁]; exact List.mem_range.mpr hj)
      · simp only [getFileStreamFromReplica, hr]
        rw [hl₁, ← List.range_succ]
  · constructor
    · simp only [getFileStreamFromReplica, hr]
      constructor
      · intro hcontra
        simp [Except.isOk, Except.toBool] at hcontra
      · rintro ⟨i, hi, hiok⟩
        rw [hfail i (List.mem_range.mpr hi)] at hiok
        cases hiok
    · intro s' i' h'
      rw [show (getFileStreamFromReplica n get).1 =
        (readReplicas get (List.range n) none).1 from rfl, hr] at h'
      cases h'

/-- Concrete instantiation of `readObject_first_success_wins`: three nodes,
only node 1 serves the key; nodes 0 and 1 are contacted, node 2 is not. -/
theorem readObject_first_success_wins_witness :
    (getFileStreamFromReplica 3 (fun i =>
      if i = 1 then (Except.ok 42 : Except MinioError Nat)
      else .error .etimedout)).2 = List.range 2 ∧
    (fun i => if i = 1 then (Except.ok 42 : Except MinioError Nat)
      else .error .etimedout) 1 = .ok 42 := by
  have h := readObject_first_success_wins 3 (fun i =>
    if i = 1 then (Except.ok 42 : Except MinioError Nat) else .error .etimedout)
  have h2 := h.2 42 1 (by decide)
  exact ⟨h2.2.2.2, h2.1⟩

/-- Claim C5: when every node fails during `getFileStreamFromReplica`, the error
propagated to the caller is the last observed per-node error — the error of
the final node tried, node `n - 1` — not the first. -/
theorem readObject_all_fail_last_error {α : Type} (n : Nat)
    (get : Nat → Except MinioError α) (err : Nat → MinioError)
    (hn : 0 < n) (hfail : ∀ i, i < n → get i = .error (err i)) :
    (getFileStreamFromReplica n get).1 = .error (.node (err (n - 1))) := by
  rcases readReplicas_cases get (List.range n) none with
    ⟨s, i, l₁, l₂, hr, hl, _, hok⟩ | ⟨_, hr⟩
  · obtain ⟨_, hin⟩ := range_append_cons hl
    rw [hfail i hin] at hok
    cases hok
  · simp only [getFileStreamFromReplica, hr]
    rw [lastErrVia_range get err n hn hfail]
    rfl

/-- Concrete instantiation of `readObject_all_fail_last_error`: three nodes
each failing with a distinguishable error; the thrown error wraps node 2's
error (the last one), not node 0's. -/
theorem readObject_all_fail_last_error_witness :
    (getFileStreamFromReplica 3 (fun i =>
      (.error (.other i) : Except MinioError Nat))).1 =
      .error (.node (.other 2)) :=
  readObject_all_fail_last_error 3 _ (fun i => .other i) (by decide)
    (fun _ _ => rfl)

/-- Claim C1, counterexample: with two registry nodes, primary node `0`, and every
node refusing connections, the attempted-node trace of
`uploadFileFromBuffer` is `[0, 0, 1]`: after the primary attempt the
fallback loop iterates *all* registry nodes — the primary's own node
included, so node `0` is attempted a second time — whereas "iterates the
remaining nodes, other than the primary" prescribes the trace
`0 :: [1] = [0, 1]`. -/
theorem writeObject_fallback_retries_primary_cex :
    (uploadFileFromBuffer 2 0
      (fun _ => .error .econnrefused)).attempted = [0, 0, 1] ∧
    (uploadFileFromBuffer 2 0
      (fun _ => .error .econnrefused)).attempted ≠
      0 :: (List.range 2).filter (fun i => !(i == 0)) := by
  decide

/-- Claim C1, amended: `uploadFileFromBuffer` follows the two-tier write algorithm,
except that the fallback iterates all registry nodes including the
primary's own node.  (1) A successful primary write returns after that one
attempt; (2) a non-connection-class primary failure propagates immediately
with no fallback attempt; (3) on a connection-class primary failure the
fallback visits the registry nodes `0..n-1` in order up to the first
acceptor (so the primary's node may be attempted twice), succeeds iff some
node accepts, writes to exactly one node (the lowest-index acceptor) on
success, and when every node fails throws `allNodesFailed` embedding the
last observed underlying error, i.e. node `n-1`'s. -/
theorem writeObject_two_tier (n p : Nat)
    (outcome : Nat → Except MinioError Unit) :
    (outcome p = .ok () →
      uploadFileFromBuffer n p outcome = ⟨.ok (), [p], [p]⟩) ∧
    (∀ e, outcome p = .error e → isConnectionError e = false →
      uploadFileFromBuffer n p outcome = ⟨.error (.primaryError e), [p], []⟩) ∧
    (∀ e, outcome p = .error e → isConnectionError e = true →
      ((uploadFileFromBuffer n p outcome).attempted =
        p :: attemptsUpTo outcome (List.range n)) ∧
      ((uploadFileFromBuffer n p outcome).result.isOk = true ↔
        ∃ i, i < n ∧ (outcome i).isOk = true) ∧
      ((uploadFileFromBuffer n p outcome).result.isOk = true →
        ∃ i, (uploadFileFromBuffer n p outcome).written = [i] ∧
          outcome i = .ok () ∧ i < n ∧
          ∀ j, j < i → (outcome j).isOk = false) ∧
      (∀ err : Nat → MinioError, (∀ i, i < n → outcome i = .error (err i)) →
        0 < n →
        (uploadFileFromBuffer n p outcome).result =
          .error (.allNodesFailed (err (n - 1))))) := by
  refine ⟨?_, ?_, ?_⟩
  · intro h
    simp [uploadFileFromBuffer, h]
  · intro e he hc
    simp [uploadFileFromBuffer, he, hc]
  · intro e he hc
    have hu : uploadFileFromBuffer n p outcome =
        ⟨(uploadFallback outcome (List.range n) e).1,
          p :: (uploadFallback outcome (List.range n) e).2.1,
          (uploadFallback outcome (List.range n) e).2.2⟩ := by
      simp [uploadFileFromBuffer, he, hc]
    refine ⟨?_, ?_, ?_, ?_⟩
    · rw [hu]
      simp [uploadFallback_attempted]
    · rw [hu]
      rcases uploadFallback_cases outcome (List.range n) e with
        ⟨i, l₁, l₂, hr, hl, hfail, hok⟩ | ⟨hfail, hr⟩
      · obtain ⟨hl₁, hin⟩ := range_append_cons hl
        simp only [hr]
        constructor
        · intro _
          exact ⟨i, hin, by simp [hok, Except.isOk, Except.toBool]⟩
        · intro _
          simp [Except.isOk, Except.toBool]
      · simp only [hr]
        constructor
        · intro hcontra
          simp [Except.isOk, Except.toBool] at hcontra
        · rintro ⟨i, hi, hiok⟩
          have := hfail i (List.mem_range.mpr hi)
          rw [this] at hiok
          cases hiok
    · rw [hu]
      rcases uploadFallback_cases outcome (List.range n) e with
        ⟨i, l₁, l₂, hr, hl, hfail, hok⟩ | ⟨hfail, hr⟩
      · obtain ⟨hl₁, hin⟩ := range_append_cons hl
        intro _
        refine ⟨i, by simp [hr], hok, hin, ?_⟩
        intro j hj
        exact hfail j (by rw [hl₁]; exact List.mem_range.mpr hj)
      · intro hcontra
        rw [hr] at hcontra
        simp [Except.isOk, Except.toBool] at hcontra
    · intro err hallfail hn
      rcases uploadFallback_cases outcome (List.range n) e with
        ⟨i, l₁, l₂, hr, hl, hfail, hok⟩ | ⟨hfail, hr⟩
      · obtain ⟨_, hin⟩ := range_append_cons hl
        rw [hallfail i hin] at hok
        cases hok
      · rw [hu]
        simp only [hr]
        rw [lastErrFrom_range outcome err n hn hallfail e]

/-- Concrete instantiation of `writeObject_two_tier`: three nodes, primary
node 0 times out, all nodes refuse the fallback write; the thrown error
embeds node 2's error (the last observed one). -/
theorem writeObject_two_tier_witness :
    (uploadFileFromBuffer 3 0 (fun i =>
      (.error (if i = 0 then .etimedout else .other i) :
        Except MinioError Unit))).result =
      .error (.allNodesFailed (.other 2)) := by
  have h := (writeObject_two_tier 3 0 (fun i =>
    (.error (if i = 0 then .etimedout else .other i) :
      Except MinioError Unit))).2.2
      .etimedout rfl (by decide)
  exact h.2.2.2 (fun i => if i = 0 then .etimedout else .other i)
    (fun _ _ => rfl) (by decide)

/-- Claim C6, counterexample: with `MINIO_NODES` set to `a:1,,b:2` the split entry
list contains an empty entry, yet `parseMinioNodes` raises no configuration
error: `.filter(Boolean)` silently drops the empty entry and the call
returns the two parsed nodes. -/
theorem parseMinioNodes_empty_entry_cex :
    ([] ∈ (jsSplit ','
        (jsTrim ['a', ':', '1', ',', ',', 'b', ':', '2'])).map jsTrim) ∧
    parseMinioNodes (some ['a', ':', '1', ',', ',', 'b', ':', '2']) none =
      .ok [⟨['a'], 1⟩, ⟨['b'], 2⟩] := by
  decide

/-- Claim C6, amended: whenever the explicit `MINIO_NODES` list is non-blank after
trimming, `parseMinioNodes` resolves it (the single-host fallback, and thus
`MINIO_ENDPOINT`, is never consulted); empty entries between commas are
silently filtered out before parsing, and every *non-empty* unparseable
entry that survives the filter makes the call raise a configuration error
rather than being skipped. -/
theorem parseMinioNodes_explicit_amended (nodes : List Char)
    (ep : Option (List Char)) :
    (jsTrim nodes ≠ [] →
      parseMinioNodes (some nodes) ep =
        parseNodesEntries
          (((jsSplit ',' (jsTrim nodes)).map jsTrim).filter
            (fun e => !e.isEmpty))) ∧
    (∀ e c, e ∈ ((jsSplit ',' (jsTrim nodes)).map jsTrim).filter
        (fun e => !e.isEmpty) →
      parseNodesEntry e = .error c →
      ∃ c', parseMinioNodes (some nodes) ep = .error c') := by
  have hunf : (jsTrim nodes).isEmpty = false →
      parseMinioNodes (some nodes) ep =
        parseNodesEntries
          (((jsSplit ',' (jsTrim nodes)).map jsTrim).filter
            (fun e => !e.isEmpty)) := by
    intro hraw
    simp [parseMinioNodes, hraw]
  constructor
  · intro h
    apply hunf
    cases hjt : jsTrim nodes with
    | nil => exact absurd hjt h
    | cons a t => simp [hjt]
  · intro e c hmem herr
    have hraw : (jsTrim nodes).isEmpty = false := by
      cases hjt : jsTrim nodes with
      | nil =>
        rw [hjt] at hmem
        simp [jsSplit, jsTrim] at hmem
      | cons a t => simp [hjt]
    obtain ⟨c', hc'⟩ := parseNodesEntries_error_of_mem hmem herr
    exact ⟨c', by rw [hunf hraw]; exact hc'⟩

/-- Concrete instantiation of `parseMinioNodes_explicit_amended`:
`MINIO_NODES = a:1,bad` takes precedence over the fallback and raises a
configuration error for the unparseable entry `bad`. -/
theorem parseMinioNodes_explicit_amended_witness :
    parseMinioNodes (some ['a', ':', '1', ',', 'b', 'a', 'd']) none =
      parseNodesEntries [['a', ':', '1'], ['b', 'a', 'd']] ∧
    ∃ c', parseMinioNodes (some ['a', ':', '1', ',', 'b', 'a', 'd']) none =
      .error c' := by
  have h := parseMinioNodes_explicit_amended
    ['a', ':', '1', ',', 'b', 'a', 'd'] none
  refine ⟨?_, h.2 ['b', 'a', 'd'] (.invalidNodesEntry ['b', 'a', 'd'])
    (by decide) (by decide)⟩
  rw [h.1 (by decide)]
  decide

/-- If no node of `l` stats as present, the source search finds nothing. -/
lemma findSourceGo_eq_none (stat : Nat → HealStat) (missing : List Nat)
    (l : List Nat) (h : ∀ i ∈ l, stat i ≠ .present) :
    findSourceGo stat missing l = none := by
  induction l with
  | nil => rfl
  | cons i rest ih =>
    have hi := h i (List.mem_cons_self i rest)
    have hrest : ∀ j ∈ rest, stat j ≠ .present :=
      fun j hj => h j (List.mem_cons_of_mem i hj)
    by_cases hc : missing.contains i = true
    · simp [findSourceGo, hc, ih hrest]
    · cases hs : stat i with
      | present => exact absurd hs hi
      | missingHere =>
        simp [findSourceGo, Bool.eq_false_iff.mpr hc, hs, ih hrest]
      | nodeDown e =>
        simp [findSourceGo, Bool.eq_false_iff.mpr hc, hs, ih hrest]

/-- A found source is a node of the searched list that stats as present. -/
lemma findSourceGo_eq_some (stat : Nat → HealStat) (missing : List Nat) :
    ∀ (l : List Nat) (j : Nat), findSourceGo stat missing l = some j →
      j ∈ l ∧ stat j = .present := by
  intro l
  induction l with
  | nil => intro j h; cases h
  | cons i rest ih =>
    intro j h
    by_cases hc : missing.contains i = true
    · rw [findSourceGo, if_pos hc] at h
      obtain ⟨hmem, hp⟩ := ih j h
      exact ⟨List.mem_cons_of_mem i hmem, hp⟩
    · rw [findSourceGo, if_neg hc] at h
      cases hs : stat i with
      | present =>
        rw [hs] at h
        cases h
        exact ⟨List.mem_cons_self i rest, hs⟩
      | missingHere =>
        rw [hs] at h
        obtain ⟨hmem, hp⟩ := ih j h
        exact ⟨List.mem_cons_of_mem i hmem, hp⟩
      | nodeDown e =>
        rw [hs] at h
        obtain ⟨hmem, hp⟩ := ih j h
        exact ⟨List.mem_cons_of_mem i hmem, hp⟩

/-- If some node of `l` stats as present and is not excluded, the source
search succeeds. -/
lemma findSourceGo_isSome (stat : Nat → HealStat) (missing : List Nat) :
    ∀ (l : List Nat) (j : Nat), j ∈ l → stat j = .present →
      missing.contains j = false →
      (findSourceGo stat missing l).isSome = true := by
  intro l
  induction l with
  | nil => intro j hj; cases hj
  | cons i rest ih =>
    intro j hj hp hnc
    by_cases hc : missing.contains i = true
    · rw [findSourceGo, if_pos hc]
      rcases List.mem_cons.mp hj with h' | h'
      · subst h'
        rw [hnc] at hc
        cases hc
      · exact ih j h' hp hnc
    · rw [findSourceGo, if_neg hc]
      cases hs : stat i with
      | present => rfl
      | missingHere =>
        rcases List.mem_cons.mp hj with h' | h'
        · subst h'; rw [hp] at hs; cases hs
        · exact ih j h' hp hnc
      | nodeDown e =>
        rcases List.mem_cons.mp hj with h' | h'
        · subst h'; rw [hp] at hs; cases hs
        · exact ih j h' hp hnc

/-- Closed form of the `runHealingCycle` fold: the healed count adds one per
file whose `healFileIfNeeded` returned `true`, the error count is never
touched, and every file is processed. -/
lemma runHealingCycle_foldl (statF : Nat → Nat → HealStat)
    (copyF : Nat → Nat → Bool) (n : Nat) :
    ∀ (files : List Nat) (a b c : Nat),
      files.foldl
        (fun acc f =>
          let r := healFileIfNeeded n (statF f) (copyF f)
          (⟨acc.healedCount + (if r.healed then 1 else 0), acc.errorCount,
            acc.processed + 1⟩ : CycleSummary))
        ⟨a, b, c⟩ =
        ⟨a + files.countP
            (fun f => (healFileIfNeeded n (statF f) (copyF f)).healed),
          b, c + files.length⟩ := by
  intro files
  induction files with
  | nil => intro a b c; simp
  | cons f rest ih =>
    intro a b c
    rw [List.foldl_cons]
    rw [ih]
    rw [List.countP_cons, List.length_cons]
    cases hb : (healFileIfNeeded n (statF f) (copyF f)).healed <;>
      simp [hb, CycleSummary.mk.injEq] <;> omega

/-- Claim C10: the healing cycle's healed count tallies attempted heals, not
completed ones — `healFileIfNeeded` returns `true` exactly when at least one
node was detected as missing the object and some source node was found,
regardless of the copy outcomes (the value is unchanged even when every copy
attempt fails), and the cycle summary counts exactly the files for which
`healFileIfNeeded` returned `true`. -/
theorem healed_counts_attempted_heals (n : Nat) (stat : Nat → HealStat)
    (copyOk : Nat → Bool) :
    ((healFileIfNeeded n stat copyOk).healed = true ↔
      (∃ i, i < n ∧ stat i = .missingHere) ∧
      (∃ j, j < n ∧ stat j = .present)) ∧
    ((healFileIfNeeded n stat (fun _ => false)).healed =
      (healFileIfNeeded n stat copyOk).healed) ∧
    (∀ (files : List Nat) (statF : Nat → Nat → HealStat)
        (copyF : Nat → Nat → Bool),
      (runHealingCycle files statF copyF n).healedCount =
        files.countP
          (fun f => (healFileIfNeeded n (statF f) (copyF f)).healed)) := by
  refine ⟨?_, ?_, ?_⟩
  · by_cases hm : (missingNodes n stat).isEmpty = true
    · simp only [healFileIfNeeded, hm, if_true]
      constructor
      · intro h; cases h
      · rintro ⟨⟨i, hi, hstat⟩, _⟩
        have hmem : i ∈ missingNodes n stat := by
          simp [missingNodes, List.mem_filter, List.mem_range, hi, hstat]
        rw [List.isEmpty_iff.mp hm] at hmem
        cases hmem
    · rw [Bool.not_eq_true] at hm
      simp only [healFileIfNeeded, hm, Bool.false_eq_true, if_false]
      cases hf : findSourceGo stat (missingNodes n stat) (List.range n) with
      | none =>
        constructor
        · intro h; cases h
        · rintro ⟨_, ⟨j, hj, hp⟩⟩
          have hc : (missingNodes n stat).contains j = false := by
            simp [missingNodes, List.contains, List.elem_eq_mem,
              List.mem_filter, hp]
          have hs := findSourceGo_isSome stat (missingNodes n stat)
            (List.range n) j (List.mem_range.mpr hj) hp hc
          rw [hf] at hs
          cases hs
      | some src =>
        constructor
        · intro _
          have hm' : missingNodes n stat ≠ [] := by
            intro hnil
            rw [hnil] at hm
            cases hm
          obtain ⟨i, hi⟩ := List.exists_mem_of_ne_nil _ hm'
          have hi' : i < n ∧ stat i = .missingHere := by
            simpa [missingNodes, List.mem_filter, List.mem_range] using hi
          obtain ⟨hsrc, hp⟩ := findSourceGo_eq_some stat _ _ _ hf
          exact ⟨⟨i, hi'⟩, ⟨src, List.mem_range.mp hsrc, hp⟩⟩
        · intro _; rfl
  · simp only [healFileIfNeeded]
    by_cases hm : (missingNodes n stat).isEmpty = true
    · rw [if_pos hm, if_pos hm]
    · rw [if_neg hm, if_neg hm]
      cases hf : findSourceGo stat (missingNodes n stat) (List.range n) <;>
        simp [hf]
  · intro files statF copyF
    rw [runHealingCycle, runHealingCycle_foldl statF copyF n files 0 0 0]
    simp

/-- Claim C8, counterexample: one metadata object that no node holds (all three
nodes answer NoSuchKey): `healFileIfNeeded` only logs
`No source node found` and returns `false`, and the cycle summary reports
`healed 0 files, 0 errors` — the inconsistency never reaches the cycle's
error count, which counts only rejected `healFileIfNeeded` promises. -/
theorem healing_no_source_error_count_cex :
    runHealingCycle [7] (fun _ _ => HealStat.missingHere)
      (fun _ _ => false) 3 = ⟨0, 0, 1⟩ ∧
    (healFileIfNeeded 3 (fun _ => HealStat.missingHere)
      (fun _ => false)).events = [HealEvent.noSourceFound] := by
  decide

/-- Claim C8, amended: for an object listed in metadata that no node holds (some
node reports it missing, no node stats as present), the cycle logs a
`No source node found` error to the console and skips the object
(`healed = false`), processing of the remaining objects continues (every
file is processed and the summary is otherwise unaffected), but the object
is *not* surfaced in the cycle's error count, which stays `0`. -/
theorem healing_no_source_logged_not_counted (n : Nat)
    (stat : Nat → HealStat) (copyOk : Nat → Bool)
    (hmiss : ∃ i, i < n ∧ stat i = HealStat.missingHere)
    (hnone : ∀ i, i < n → stat i ≠ HealStat.present) :
    healFileIfNeeded n stat copyOk = ⟨false, [HealEvent.noSourceFound]⟩ ∧
    (∀ (files : List Nat) (statF : Nat → Nat → HealStat)
        (copyF : Nat → Nat → Bool),
      runHealingCycle files statF copyF n =
        ⟨files.countP
            (fun f => (healFileIfNeeded n (statF f) (copyF f)).healed),
          0, files.length⟩) := by
  constructor
  · obtain ⟨i, hi, hstat⟩ := hmiss
    have hmem : i ∈ missingNodes n stat := by
      simp [missingNodes, List.mem_filter, List.mem_range, hi, hstat]
    have hm : (missingNodes n stat).isEmpty = false := by
      rw [List.isEmpty_eq_false]
      exact List.ne_nil_of_mem hmem
    have hf : findSourceGo stat (missingNodes n stat) (List.range n) = none :=
      findSourceGo_eq_none stat _ _
        (fun j hj => hnone j (List.mem_range.mp hj))
    simp [healFileIfNeeded, hm, hf]
  · intro files statF copyF
    rw [runHealingCycle, runHealingCycle_foldl statF copyF n files 0 0 0]
    simp

/-- Concrete instantiation of `healing_no_source_logged_not_counted`: three
nodes all reporting NoSuchKey for the object; two further files in the same
cycle are still processed. -/
theorem healing_no_source_logged_not_counted_witness :
    healFileIfNeeded 3 (fun _ => HealStat.missingHere) (fun _ => true) =
      ⟨false, [HealEvent.noSourceFound]⟩ ∧
    runHealingCycle [1, 2] (fun _ _ => HealStat.missingHere)
      (fun _ _ => true) 3 = ⟨0, 0, 2⟩ := by
  have h := healing_no_source_logged_not_counted 3
    (fun _ => HealStat.missingHere) (fun _ => true)
    ⟨0, by decide, rfl⟩ (fun _ _ h => HealStat.noConfusion h)
  refine ⟨h.1, ?_⟩
  rw [h.2 [1, 2] (fun _ _ => HealStat.missingHere) (fun _ _ => true)]
  decide
